import Mathlib

/-!
Verification of the servier-de data pipeline (airflow-dags/script/helper.py
and airflow-dags/custom_operator.py) against its natural-language
specification.

Modelling conventions (shallow embedding):
* Python strings are `String` (a list of unicode scalar characters);
  absent / NaN values are `Option`.
* A pandas column is a `List` of values; a DataFrame is a `List` of row
  structures in source row order.
* A Python dict with insertion order is an association list; dict keys are
  unique in every graph the program builds, and the embedding keeps the
  first binding for lookups exactly as a dict would.
* Python sets are modelled by lists together with membership propositions.
* Fallible code (exceptions) returns `Except`.
-/

set_option maxHeartbeats 2000000
set_option maxRecDepth 100000

namespace Servier

/-! ## Character-level text utilities -/

/-- The whitespace set that Python's `str.strip()` removes (ASCII part). -/
def isPyWs (c : Char) : Bool :=
  c == ' ' || c == '\t' || c == '\n' || c == '\r' || c == Char.ofNat 11 || c == Char.ofNat 12

/-- `str.strip()` on a list of characters: drop whitespace on both ends. -/
def pyStripCh (l : List Char) : List Char :=
  ((l.dropWhile isPyWs).reverse.dropWhile isPyWs).reverse

/-- The character class `[0-9a-fA-F]` of the cleaning regex. -/
def isHexDigit (c : Char) : Bool :=
  (decide ('0' ≤ c) && decide (c ≤ '9')) ||
  (decide ('a' ≤ c) && decide (c ≤ 'f')) ||
  (decide ('A' ≤ c) && decide (c ≤ 'F'))

/-- The optional trailing `" ?"` of the cleaning regex. -/
def dropOneSpace : List Char → List Char
  | ' ' :: rest => rest
  | l => l

/-- One attempt of the regex `(\\\\x|\\x)[0-9a-fA-F]{2} ?` at the head of the
string.  `some rest` means the pattern matched a prefix and `rest` is what
follows the match; `none` means no match at this position.  The first
alternative (double backslash) is preferred, exactly as in `re`. -/
def artMatch : List Char → Option (List Char)
  | '\\' :: '\\' :: 'x' :: a :: b :: rest =>
      if isHexDigit a && isHexDigit b then some (dropOneSpace rest) else none
  | '\\' :: 'x' :: a :: b :: rest =>
      if isHexDigit a && isHexDigit b then some (dropOneSpace rest) else none
  | _ => none

theorem dropOneSpace_length (l : List Char) : (dropOneSpace l).length ≤ l.length := by
  unfold dropOneSpace
  split
  · simp
  · exact Nat.le_refl _

theorem artMatch_length {l rest : List Char} (h : artMatch l = some rest) :
    rest.length < l.length := by
  unfold artMatch at h
  split at h
  · split at h
    · injection h with h'
      subst h'
      rename_i r _
      have := dropOneSpace_length r
      simp only [List.length_cons]
      omega
    · exact absurd h (by simp)
  · split at h
    · injection h with h'
      subst h'
      rename_i r _
      have := dropOneSpace_length r
      simp only [List.length_cons]
      omega
    · exact absurd h (by simp)
  · exact absurd h (by simp)

/-- The scan of `re.sub`, with explicit fuel for structural recursion;
every step shortens the string, so any fuel of at least the string's
length computes the full scan. -/
def removeArtFuel : Nat → List Char → List Char
  | 0, l => l
  | _ + 1, [] => []
  | fuel + 1, c :: cs =>
    match artMatch (c :: cs) with
    | some rest => removeArtFuel fuel rest
    | none => c :: removeArtFuel fuel cs

/-- `re.sub(r"(\\\\x|\\x)[0-9a-fA-F]{2} ?", "", s)`: scan left to right,
deleting each match and resuming after it, otherwise advancing one
character. -/
def removeArtCh (l : List Char) : List Char :=
  removeArtFuel l.length l

/-- Does the artifact pattern match anywhere in the string? -/
def hasArtCh : List Char → Bool
  | [] => false
  | c :: cs => (artMatch (c :: cs)).isSome || hasArtCh cs

/-- `clean_non_utf8_characters` from `script/helper.py`. -/
def clean_non_utf8_characters (s : String) : String :=
  String.mk (removeArtCh s.data)

/-- One value of `clean_text_column` from `script/helper.py`:
`fillna("")`, then `str.strip()`, then `clean_non_utf8_characters`. -/
def clean_text_value (v : Option String) : String :=
  String.mk (removeArtCh (pyStripCh (v.getD "").data))

/-- `clean_text_column` applied to a whole column. -/
def clean_text_column (col : List (Option String)) : List String :=
  col.map clean_text_value

/-- Boolean check that a character list has no leading and no trailing
whitespace. -/
def noEdgeWs (l : List Char) : Bool :=
  (match l.head? with | none => true | some c => !isPyWs c) &&
  (match l.getLast? with | none => true | some c => !isPyWs c)

/-! ## Date normalization

`fuzzy_string_to_iso8601` calls `dateutil.parser.parse(string, fuzzy=True)`,
an external library that is not part of this repository's sources. -/

/-- Maximal runs of decimal digits in a string, as numbers, in order;
every non-digit character only separates runs.  Auxiliary scanner with the
current run (if any) as accumulator. -/
def numTokensAux : List Char → Option Nat → List Nat
  | [], none => []
  | [], some n => [n]
  | c :: cs, acc =>
    if c.isDigit then numTokensAux cs (some ((acc.getD 0) * 10 + (c.toNat - 48)))
    else
      match acc with
      | none => numTokensAux cs none
      | some n => n :: numTokensAux cs none

def numTokens (l : List Char) : List Nat :=
  numTokensAux l none

/-- Gregorian leap year. -/
def isLeap (y : Nat) : Bool :=
  (y % 4 == 0 && y % 100 != 0) || y % 400 == 0

/-- Number of days of month `m` of year `y`. -/
def daysInMonth (y m : Nat) : Nat :=
  if m == 2 then (if isLeap y then 29 else 28)
  else if m == 4 || m == 6 || m == 9 || m == 11 then 30
  else 31

def validMonthDay (y m d : Nat) : Bool :=
  1 ≤ m && m ≤ 12 && 1 ≤ d && d ≤ daysInMonth y m

/-- Modelled from the spec: the year/month/day resolution of
`dateutil.parser.parse(string, fuzzy=True)`, which is external library code
not under the repository sources.  Per §4.2 of the spec the parse is fuzzy
(non-date tokens are ignored, which `numTokens` realises) and day/month
ambiguity is resolved day-first: for three numeric components with a
trailing four-digit year the first component is the day whenever that reading
is a valid calendar date, otherwise the month/day reading is tried; a leading
four-digit year gives the ISO year-month-day reading.  Any other token
pattern carries no extractable date and fails with `DateParseError`. -/
def resolve_ymd : List Nat → Except String (Nat × Nat × Nat)
  | [a, b, c] =>
    if 1000 ≤ a then
      if validMonthDay a b c then Except.ok (a, b, c) else Except.error "DateParseError"
    else if 1000 ≤ c then
      if validMonthDay c b a then Except.ok (c, b, a)
      else if validMonthDay c a b then Except.ok (c, a, b)
      else Except.error "DateParseError"
    else Except.error "DateParseError"
  | _ => Except.error "DateParseError"

/-- Decimal digits of a number, padded with leading zeros to width `w`. -/
def natPad (w n : Nat) : List Char :=
  let s := (Nat.toDigits 10 n)
  List.replicate (w - s.length) '0' ++ s

/-- ISO-8601 `YYYY-MM-DD` rendering. -/
def isoFormat (y m d : Nat) : String :=
  String.mk (natPad 4 y ++ '-' :: natPad 2 m ++ '-' :: natPad 2 d)

/-- `fuzzy_string_to_iso8601` from `script/helper.py`:
`parse(string, fuzzy=True).date().isoformat()`, with the date extraction
modelled from the spec (see `resolve_ymd`). -/
def fuzzy_string_to_iso8601 (s : String) : Except String String :=
  match resolve_ymd (numTokens s.data) with
  | Except.error e => Except.error e
  | Except.ok (y, m, d) => Except.ok (isoFormat y m d)

/-- `clean_date` from `script/helper.py`:
`s.astype("string").apply(fuzzy_string_to_iso8601)`.  A raised parse error
aborts the whole column operation at the first failing row, which `Except`
propagation mirrors. -/
def clean_date : List String → Except String (List String)
  | [] => Except.ok []
  | d :: rest =>
    match fuzzy_string_to_iso8601 d with
    | Except.error e => Except.error e
    | Except.ok v =>
      match clean_date rest with
      | Except.error e => Except.error e
      | Except.ok vs => Except.ok (v :: vs)

/-- Discriminator of `Except` results. -/
def exceptOk {e a : Type} : Except e a → Bool
  | Except.ok _ => true
  | Except.error _ => false

deriving instance DecidableEq for Except

/-! ## Data model of the drug graph -/

/-- A Mention record `{id, title, date, journal}` as built by
`create_drug_graph`. -/
structure Mention where
  id : String
  title : String
  date : String
  journal : String
deriving DecidableEq, Repr

/-- The value of one drug key: `{"pubmed": [...], "clinical_trials": [...]}`. -/
structure DrugEntry where
  pubmed : List Mention
  clinical_trials : List Mention
deriving DecidableEq, Repr

/-- The drug graph: a dict from atccode to entry, in insertion order. -/
abbrev DrugGraph : Type := List (String × DrugEntry)

/-- A row of the drugs registry table. -/
structure DrugRow where
  atccode : String
  drug : String
deriving DecidableEq, Repr

/-- A row of a cleaned publication / clinical-trial table.  The `id` field
holds the row's id already rendered as a string (`str(row["id"])` and our
table values are strings, so the coercion is the identity here); the title
may be missing. -/
structure SrcRow where
  id : String
  title : Option String
  date : String
  journal : String
deriving DecidableEq, Repr

/-! ## Case-insensitive substring matching -/

def toLowerCh (l : List Char) : List Char := l.map Char.toLower

def isPrefixCh : List Char → List Char → Bool
  | [], _ => true
  | _ :: _, [] => false
  | a :: as, b :: bs => a == b && isPrefixCh as bs

def isInfixCh (p : List Char) : List Char → Bool
  | [] => isPrefixCh p []
  | c :: rest => isPrefixCh p (c :: rest) || isInfixCh p rest

/-- `df["title"].str.contains(name, case=False) & ~df["title"].isna()`:
rows with a missing title never match, otherwise a case-insensitive
substring test (drug names carry no regex metacharacters, so `contains`
is a plain substring search). -/
def strContainsCI (hay : Option String) (needle : String) : Bool :=
  match hay with
  | none => false
  | some t => isInfixCh (toLowerCh needle.data) (toLowerCh t.data)

/-! ## create_drug_graph -/

/-- The row-to-mention conversion of `extract_related_data`. -/
def toMention (r : SrcRow) : Mention :=
  { id := r.id, title := r.title.getD "", date := r.date, journal := r.journal }

def extract_related_data (rows : List SrcRow) : List Mention :=
  rows.map toMention

/-- Filtering a source table by title match against a drug name. -/
def relatedRows (rows : List SrcRow) (name : String) : List SrcRow :=
  rows.filter (fun r => strContainsCI r.title name)

def entryFor (dr : DrugRow) (pubmed trials : List SrcRow) : DrugEntry :=
  { pubmed := extract_related_data (relatedRows pubmed dr.drug)
    clinical_trials := extract_related_data (relatedRows trials dr.drug) }

/-- Assignment `drug_graph[k] = e` on an insertion-ordered dict:
overwrite in place when the key exists, append otherwise. -/
def upsert (g : DrugGraph) (k : String) (e : DrugEntry) : DrugGraph :=
  if (List.any g fun p => p.1 == k) then
    List.map (fun p => if p.1 == k then (k, e) else p) g
  else g ++ [(k, e)]

/-- `create_drug_graph` from `script/helper.py`. -/
def create_drug_graph (drugs : List DrugRow) (pubmed trials : List SrcRow) : DrugGraph :=
  drugs.foldl (fun g dr => upsert g dr.atccode (entryFor dr pubmed trials)) []

/-! ## Generic first-winner argmax, as Python's `max(xs, key=k)` computes it -/

/-- Number of occurrences of a record in a list (`list.count(x)`). -/
def occCount (x : Mention) : List Mention → Nat
  | [] => 0
  | y :: ys => (if y = x then 1 else 0) + occCount x ys

/-- Python's `max(l, key=k)`: fold keeping the current best, replacing it
only on a strictly larger key, `none` on the empty list (where Python
raises `ValueError`). -/
def pyArgmax (k : α → Nat) : List α → Option α
  | [] => none
  | x :: xs => some (xs.foldl (fun b y => if k b < k y then y else b) x)

/-- Maximum of the keys of a list (0 for the empty list). -/
def listKeyMax (k : α → Nat) (l : List α) : Nat :=
  l.foldr (fun y m => max (k y) m) 0

/-- The first element of the list attaining the maximal key. -/
def argmaxFirst (k : α → Nat) (l : List α) : Option α :=
  l.find? (fun x => decide (listKeyMax k l ≤ k x))

/-! ## The two graph analytics -/

def combinedMentions (e : DrugEntry) : List Mention :=
  e.pubmed ++ e.clinical_trials

/-- `len(set(mention["journal"] for mention in all_mentions))`. -/
def distinctJournalCount (e : DrugEntry) : Nat :=
  ((combinedMentions e).map Mention.journal).dedup.length

/-- The journal of the most frequently repeated record of the combined list
(`max(all_mentions, key=all_mentions.count)["journal"]`). -/
def jmostCode (p : String × DrugEntry) : Option String :=
  (pyArgmax (fun x => occCount x (combinedMentions p.2)) (combinedMentions p.2)).map
    Mention.journal

/-- The loop body of `extract_journal_with_most_drugs`. -/
def gStep (acc : Nat × Option String) (p : String × DrugEntry) : Nat × Option String :=
  if acc.1 < distinctJournalCount p.2 then (distinctJournalCount p.2, jmostCode p)
  else acc

/-- `extract_journal_with_most_drugs` from `script/helper.py`. -/
def extract_journal_with_most_drugs (g : DrugGraph) : Option String :=
  (List.foldl gStep ((0 : Nat), (none : Option String)) g).2

/-- Spec-side distinct-journal count: the cardinality of the set of
journal values of the combined mention list. -/
def specDistinctCount (e : DrugEntry) : Nat :=
  ((combinedMentions e).map Mention.journal).toFinset.card

def maxDistinctCount (g : DrugGraph) : Nat :=
  listKeyMax (fun p => specDistinctCount p.2) g

/-- Spec-side drug selection for `mostMentioningJournal`: the first drug in
graph order whose distinct-journal count attains the maximum, provided some
drug has at least one mention. -/
def selectedDrug (g : DrugGraph) : Option (String × DrugEntry) :=
  if maxDistinctCount g = 0 then none
  else List.find? (fun p => decide (maxDistinctCount g ≤ specDistinctCount p.2)) g

/-- Spec-side most-frequent mention of a list: the first mention whose
whole-record repeat count is maximal. -/
def mostFrequentMention (ms : List Mention) : Option Mention :=
  argmaxFirst (fun x => occCount x ms) ms

/-- `mostMentioningJournal()` as §4.7 of the spec words it. -/
def mostMentioningJournal (g : DrugGraph) : Option String :=
  (selectedDrug g).bind fun p =>
    (mostFrequentMention (combinedMentions p.2)).map Mention.journal

/-! ## find_related_drugs -/

/-- `target_drug in drug_data` plus `drug_data[target_drug]`. -/
def lookupEntry (g : DrugGraph) (t : String) : Option DrugEntry :=
  (List.find? (fun p => p.1 == t) g).map (fun p => p.2)

def pubmedJournals (e : DrugEntry) : List String :=
  e.pubmed.map Mention.journal

/-- `find_related_drugs` from `script/helper.py`.  The Python set of drug
codes is modelled as the list of codes in graph order (dict keys are unique,
so no code repeats); set intersection being non-empty is the existence of a
shared journal value. -/
def find_related_drugs (g : DrugGraph) (target : String) : List String :=
  match lookupEntry g target with
  | none => []
  | some te =>
    List.map (fun p => p.1)
      (List.filter
        (fun p =>
          p.1 != target &&
          (pubmedJournals p.2).any (fun j => (pubmedJournals te).any (fun x => x == j)))
        g)

/-- Replacing every clinical-trials list of a graph by an arbitrary
function of the key and entry, leaving keys and pubmed lists alone. -/
def setTrials (f : String → DrugEntry → List Mention) (g : DrugGraph) : DrugGraph :=
  List.map (fun p => (p.1, { pubmed := p.2.pubmed, clinical_trials := f p.1 p.2 })) g

/-! ## Byte-level primitives for the identity assigner

`create_hashed_uuid_for_nan` computes
`uuid.uuid5(uuid.NAMESPACE_DNS, hashlib.md5(text.encode("utf-8")).hexdigest())`.
MD5, SHA-1 (inside uuid5) and UTF-8 are implemented here over `Nat` bytes. -/

/-- Truncation to a 32-bit word. -/
def w32 (n : Nat) : Nat := n % 4294967296

/-- Bitwise complement of a 32-bit word. -/
def not32 (n : Nat) : Nat := 4294967295 - n

/-- Left rotation of a 32-bit word (argument below `2 ^ 32`). -/
def rotl32 (x s : Nat) : Nat := (x * 2 ^ s) % 4294967296 + x / 2 ^ (32 - s)

/-- `k` bytes of `n`, little-endian. -/
def leBytes (k n : Nat) : List Nat :=
  (List.range k).map (fun i => n / 256 ^ i % 256)

/-- `k` bytes of `n`, big-endian. -/
def beBytes (k n : Nat) : List Nat :=
  (List.range k).map (fun i => n / 256 ^ (k - 1 - i) % 256)

def utf8EncodeChar (c : Char) : List Nat :=
  let n := c.toNat
  if n < 128 then [n]
  else if n < 2048 then [192 + n / 64, 128 + n % 64]
  else if n < 65536 then [224 + n / 4096, 128 + n / 64 % 64, 128 + n % 64]
  else [240 + n / 262144, 128 + n / 4096 % 64, 128 + n / 64 % 64, 128 + n % 64]

def utf8Bytes (s : String) : List Nat :=
  s.data.foldr (fun c acc => utf8EncodeChar c ++ acc) []

/-- Splitting a byte string into 64-byte blocks, with explicit fuel for
structural recursion; every step shortens the list, so any fuel above the
list's length suffices. -/
def chunks64Fuel : Nat → List Nat → List (List Nat)
  | 0, _ => []
  | _ + 1, [] => []
  | fuel + 1, c :: cs => (c :: cs).take 64 :: chunks64Fuel fuel ((c :: cs).drop 64)

/-- Split a byte string into 64-byte blocks. -/
def chunks64 (l : List Nat) : List (List Nat) :=
  chunks64Fuel (l.length + 1) l

/-- Merkle–Damgård padding shared by MD5 and SHA-1: a `0x80` byte, zeros up
to 56 mod 64, then the bit length in the given 8-byte encoding. -/
def padWith (lenBytes : List Nat) (msg : List Nat) : List Nat :=
  msg ++ 128 :: (List.replicate ((120 - (msg.length + 1) % 64) % 64) 0 ++ lenBytes)

/-- Little-endian 32-bit word number `j` of a block. -/
def wordAtLE (blk : List Nat) (j : Nat) : Nat :=
  blk.getD (4 * j) 0 + 256 * blk.getD (4 * j + 1) 0 + 65536 * blk.getD (4 * j + 2) 0 +
    16777216 * blk.getD (4 * j + 3) 0

/-- Big-endian 32-bit word number `j` of a block. -/
def wordAtBE (blk : List Nat) (j : Nat) : Nat :=
  16777216 * blk.getD (4 * j) 0 + 65536 * blk.getD (4 * j + 1) 0 + 256 * blk.getD (4 * j + 2) 0 +
    blk.getD (4 * j + 3) 0

/-- The 64 MD5 sine constants. -/
def md5K : List Nat :=
  [0xd76aa478, 0xe8c7b756, 0x242070db, 0xc1bdceee, 0xf57c0faf, 0x4787c62a,
   0xa8304613, 0xfd469501, 0x698098d8, 0x8b44f7af, 0xffff5bb1, 0x895cd7be,
   0x6b901122, 0xfd987193, 0xa679438e, 0x49b40821, 0xf61e2562, 0xc040b340,
   0x265e5a51, 0xe9b6c7aa, 0xd62f105d, 0x02441453, 0xd8a1e681, 0xe7d3fbc8,
   0x21e1cde6, 0xc33707d6, 0xf4d50d87, 0x455a14ed, 0xa9e3e905, 0xfcefa3f8,
   0x676f02d9, 0x8d2a4c8a, 0xfffa3942, 0x8771f681, 0x6d9d6122, 0xfde5380c,
   0xa4beea44, 0x4bdecfa9, 0xf6bb4b60, 0xbebfbc70, 0x289b7ec6, 0xeaa127fa,
   0xd4ef3085, 0x04881d05, 0xd9d4d039, 0xe6db99e5, 0x1fa27cf8, 0xc4ac5665,
   0xf4292244, 0x432aff97, 0xab9423a7, 0xfc93a039, 0x655b59c3, 0x8f0ccc92,
   0xffeff47d, 0x85845dd1, 0x6fa87e4f, 0xfe2ce6e0, 0xa3014314, 0x4e0811a1,
   0xf7537e82, 0xbd3af235, 0x2ad7d2bb, 0xeb86d391]

/-- The 64 MD5 per-round shift amounts. -/
def md5S : List Nat :=
  [7, 12, 17, 22, 7, 12, 17, 22, 7, 12, 17, 22, 7, 12, 17, 22,
   5, 9, 14, 20, 5, 9, 14, 20, 5, 9, 14, 20, 5, 9, 14, 20,
   4, 11, 16, 23, 4, 11, 16, 23, 4, 11, 16, 23, 4, 11, 16, 23,
   6, 10, 15, 21, 6, 10, 15, 21, 6, 10, 15, 21, 6, 10, 15, 21]

def md5F (i b c d : Nat) : Nat :=
  if i < 16 then (b &&& c) ||| (not32 b &&& d)
  else if i < 32 then (d &&& b) ||| (not32 d &&& c)
  else if i < 48 then b ^^^ c ^^^ d
  else c ^^^ (b ||| not32 d)

def md5G (i : Nat) : Nat :=
  if i < 16 then i
  else if i < 32 then (5 * i + 1) % 16
  else if i < 48 then (3 * i + 5) % 16
  else 7 * i % 16

def md5Round (blk : List Nat) (st : Nat × Nat × Nat × Nat) (i : Nat) : Nat × Nat × Nat × Nat :=
  let a := st.1
  let b := st.2.1
  let c := st.2.2.1
  let d := st.2.2.2
  let f := w32 (md5F i b c d + a + md5K.getD i 0 + wordAtLE blk (md5G i))
  (d, w32 (b + rotl32 f (md5S.getD i 0)), b, c)

def md5Block (st : Nat × Nat × Nat × Nat) (blk : List Nat) : Nat × Nat × Nat × Nat :=
  let r := (List.range 64).foldl (md5Round blk) st
  (w32 (st.1 + r.1), w32 (st.2.1 + r.2.1), w32 (st.2.2.1 + r.2.2.1), w32 (st.2.2.2 + r.2.2.2))

/-- MD5 digest (16 bytes) of a byte string. -/
def md5Bytes (msg : List Nat) : List Nat :=
  let r := (chunks64 (padWith (leBytes 8 (msg.length * 8)) msg)).foldl md5Block
    (0x67452301, 0xefcdab89, 0x98badcfe, 0x10325476)
  leBytes 4 r.1 ++ leBytes 4 r.2.1 ++ leBytes 4 r.2.2.1 ++ leBytes 4 r.2.2.2

def hexDigitCh (n : Nat) : Char :=
  (String.data "0123456789abcdef").getD n '0'

def byteHex (n : Nat) : List Char :=
  [hexDigitCh (n / 16), hexDigitCh (n % 16)]

def bytesHex (bs : List Nat) : List Char :=
  bs.foldr (fun b acc => byteHex b ++ acc) []

/-- `hashlib.md5(...).hexdigest()`. -/
def md5Hex (msg : List Nat) : String :=
  String.mk (bytesHex (md5Bytes msg))

def sha1F (t b c d : Nat) : Nat :=
  if t < 20 then (b &&& c) ||| (not32 b &&& d)
  else if t < 40 then b ^^^ c ^^^ d
  else if t < 60 then (b &&& c) ||| (b &&& d) ||| (c &&& d)
  else b ^^^ c ^^^ d

def sha1KC (t : Nat) : Nat :=
  if t < 20 then 0x5A827999
  else if t < 40 then 0x6ED9EBA1
  else if t < 60 then 0x8F1BBCDC
  else 0xCA62C1D6

/-- The 80-word SHA-1 message schedule of one block. -/
def sha1Schedule (blk : List Nat) : List Nat :=
  (List.range 64).foldl
    (fun ws i =>
      ws ++ [rotl32 (ws.getD (i + 13) 0 ^^^ ws.getD (i + 8) 0 ^^^ ws.getD (i + 2) 0 ^^^
        ws.getD i 0) 1])
    ((List.range 16).map (wordAtBE blk))

def sha1Round (ws : List Nat) (st : Nat × Nat × Nat × Nat × Nat) (t : Nat) :
    Nat × Nat × Nat × Nat × Nat :=
  let a := st.1
  let b := st.2.1
  let c := st.2.2.1
  let d := st.2.2.2.1
  let e := st.2.2.2.2
  (w32 (rotl32 a 5 + sha1F t b c d + e + sha1KC t + ws.getD t 0), a, rotl32 b 30, c, d)

def sha1Block (st : Nat × Nat × Nat × Nat × Nat) (blk : List Nat) :
    Nat × Nat × Nat × Nat × Nat :=
  let r := (List.range 80).foldl (sha1Round (sha1Schedule blk)) st
  (w32 (st.1 + r.1), w32 (st.2.1 + r.2.1), w32 (st.2.2.1 + r.2.2.1),
    w32 (st.2.2.2.1 + r.2.2.2.1), w32 (st.2.2.2.2 + r.2.2.2.2))

/-- SHA-1 digest (20 bytes) of a byte string. -/
def sha1Bytes (msg : List Nat) : List Nat :=
  let r := (chunks64 (padWith (beBytes 8 (msg.length * 8)) msg)).foldl sha1Block
    (0x67452301, 0xEFCDAB89, 0x98BADCFE, 0x10325476, 0xC3D2E1F0)
  beBytes 4 r.1 ++ beBytes 4 r.2.1 ++ beBytes 4 r.2.2.1 ++ beBytes 4 r.2.2.2.1 ++
    beBytes 4 r.2.2.2.2

/-- The bytes of `uuid.NAMESPACE_DNS`. -/
def uuidNamespaceDNS : List Nat :=
  [0x6b, 0xa7, 0xb8, 0x10, 0x9d, 0xad, 0x11, 0xd1,
   0x80, 0xb4, 0x00, 0xc0, 0x4f, 0xd4, 0x30, 0xc8]

/-- `uuid.uuid5`: SHA-1 of namespace plus name, truncated to 16 bytes, with
the version nibble set to 5 and the RFC 4122 variant bits set. -/
def uuid5Bytes (ns nameBytes : List Nat) : List Nat :=
  let h := (sha1Bytes (ns ++ nameBytes)).take 16
  (List.range 16).map fun i =>
    let v := h.getD i 0
    if i == 6 then v % 16 + 80
    else if i == 8 then v % 64 + 128
    else v

/-- `str(uuid.uuid5(ns, name))`: canonical 8-4-4-4-12 lowercase-hex text. -/
def uuid5Hex (ns nameBytes : List Nat) : String :=
  let b := uuid5Bytes ns nameBytes
  String.mk (bytesHex (b.take 4) ++ '-' :: bytesHex ((b.drop 4).take 2) ++ '-' ::
    bytesHex ((b.drop 6).take 2) ++ '-' :: bytesHex ((b.drop 8).take 2) ++ '-' ::
    bytesHex (b.drop 10))

/-! ## create_hashed_uuid_for_nan -/

/-- A table row for the identity assigner: the identity column value (absent
for NaN) and, in source column order, the other columns as name/value
pairs (values already rendered as strings, as `str` leaves our table
strings unchanged). -/
structure RawRow where
  id : Option String
  others : List (String × String)
deriving DecidableEq, Repr

/-- Code-point lexicographic order on character lists, the order in which
`pandas.Index.difference` returns column names. -/
def lexLtCh : List Char → List Char → Bool
  | [], [] => false
  | [], _ :: _ => true
  | _ :: _, [] => false
  | a :: as, b :: bs =>
    if a.toNat < b.toNat then true
    else if b.toNat < a.toNat then false
    else lexLtCh as bs

def colLeb (p q : String × String) : Bool :=
  !lexLtCh q.1.data p.1.data

def insertCol (p : String × String) : List (String × String) → List (String × String)
  | [] => [p]
  | q :: rest => if colLeb p q then p :: q :: rest else q :: insertCol p rest

/-- `df.columns.difference([id_column])` yields the non-identity columns
sorted by name; sorting the name/value pairs models it. -/
def sortedOtherCols (l : List (String × String)) : List (String × String) :=
  l.foldr insertCol []

def joinComma (vs : List String) : String :=
  String.intercalate "," vs

/-- The identifier assigned to a NaN id: the row's other columns in sorted
column order, joined with commas, UTF-8 encoded, MD5 hashed, and the hex
digest mapped through `uuid.uuid5(uuid.NAMESPACE_DNS, digest)`. -/
def hashedId (others : List (String × String)) : String :=
  uuid5Hex uuidNamespaceDNS
    (utf8Bytes (md5Hex (utf8Bytes (joinComma ((sortedOtherCols others).map Prod.snd)))))

/-- `create_hashed_uuid_for_nan` from `script/helper.py`: every row keeps
its position; a row with an id keeps it, a row without gets `hashedId` of
its other columns. -/
def create_hashed_uuid_for_nan : List RawRow → List RawRow
  | [] => []
  | r :: rest =>
    (match r.id with
     | some _ => r
     | none => { r with id := some (hashedId r.others) }) :: create_hashed_uuid_for_nan rest

/-! ## The section-8 fixtures (from `tests/test_func.py`) -/

def mentionCmpPressure : Mention :=
  { id := "1e5361a6-edbe-58a4-bf9a-6a4ad5ffe973"
    title := "Comparison of pressure BETAMETHASONE release, phonophoresis and dry needling in treatment of latent myofascial trigger point of upper trapezius ATROPINE muscle."
    date := "2020-01-03"
    journal := "The journal of maternal-fetal & neonatal medicine" }

def mentionDoppler : Mention :=
  { id := "10.0"
    title := "Clinical implications of umbilical artery Doppler changes after betamethasone administration"
    date := "2020-01-01"
    journal := "The journal of maternal-fetal & neonatal medicine" }

def mentionTopical : Mention :=
  { id := "11.0"
    title := "Effects of Topical Application of Betamethasone on Imiquimod-induced Psoriasis-like Skin Inflammation in Mice."
    date := "2020-01-01"
    journal := "Journal of back and musculoskeletal rehabilitation" }

def mentionPreemptive : Mention :=
  { id := "NCT04153396"
    title := "Preemptive Infiltration With Betamethasone and Ropivacaine for Postoperative Pain in Laminoplasty or Laminectomy"
    date := "2020-01-01"
    journal := "Hôpitaux Universitaires de Genève" }

def mentionGold : Mention :=
  { id := "9.0"
    title := "Gold nanoparticles synthesized from Euphorbia fischeriana root by green route method alleviates the isoprenaline hydrochloride induced myocardial infarction in rats."
    date := "2020-01-01"
    journal := "Journal of photochemistry and photobiology. B, Biology" }

/-- The `drug_data` fixture of the reference tests. -/
def fixtureGraph : DrugGraph :=
  [("A03BA", { pubmed := [mentionCmpPressure], clinical_trials := [] }),
   ("R01AD",
    { pubmed := [mentionDoppler, mentionTopical, mentionCmpPressure]
      clinical_trials := [mentionPreemptive] }),
   ("6302001", { pubmed := [mentionGold], clinical_trials := [] })]

/-- The clinical-trials table of the reference tests. -/
def trialsFixture : List SrcRow :=
  [{ id := "NCT01967433"
     title := some "Use of Diphenhydramine as an Adjunctive Sedative for Colonoscopy in Patients Chronically on Opioids"
     date := "2020-01-01", journal := "Journal of emergency nursing" },
   { id := "NCT04189588"
     title := some "Phase 2 Study IV QUZYTTIR™ (Cetirizine Hydrochloride Injection) vs V Diphenhydramine"
     date := "2020-01-01", journal := "Journal of emergency nursing" },
   { id := "NCT04237091"
     title := some "Feasibility of a Randomized Controlled Clinical Trial Comparing the Use of Cetirizine to Replace Diphenhydramine in the Prevention of Reactions Related to Paclitaxel"
     date := "2020-01-01", journal := "Journal of emergency nursing" },
   { id := "NCT04153396"
     title := some "Preemptive Infiltration With Betamethasone and Ropivacaine for Postoperative Pain in Laminoplasty or Laminectomy"
     date := "2020-01-01", journal := "Hôpitaux Universitaires de Genève" },
   { id := "1"
     title := some "Glucagon Infusion in T1D Patients With Recurrent Severe Hypoglycemia: Effects on Counter-Regulatory Responses"
     date := "2020-05-25", journal := "Journal of emergency nursing" },
   { id := "NCT04188184"
     title := some "Tranexamic Acid Versus Epinephrine During Exploratory Tympanotomy"
     date := "2020-04-27", journal := "Journal of emergency nursing" }]

/-- The merged-pubmed row whose id is missing in the raw data; the
reference fixture carries the pipeline-assigned identifier for it. -/
def rawRowNoId : RawRow :=
  { id := none
    others :=
      [("title", "Comparison of pressure BETAMETHASONE release, phonophoresis and dry needling in treatment of latent myofascial trigger point of upper trapezius ATROPINE muscle."),
       ("date", "2020-01-03"),
       ("journal", "The journal of maternal-fetal & neonatal medicine")] }

/-- The three drugs of the substring-match scenario of §8 of the spec. -/
def drugsFixture3 : List DrugRow :=
  [{ atccode := "A04AD", drug := "DIPHENHYDRAMINE" },
   { atccode := "A03BA", drug := "ATROPINE" },
   { atccode := "R01AD", drug := "BETAMETHASONE" }]

/-! ## Lemmas about stripping and artifact removal -/

theorem dropWhile_head?_not (p : Char → Bool) (l : List Char) {c : Char}
    (h : (l.dropWhile p).head? = some c) : p c = false := by
  induction l with
  | nil => simp at h
  | cons a l ih =>
    rw [List.dropWhile_cons] at h
    split at h
    · exact ih h
    · rename_i ha
      simp only [List.head?_cons, Option.some.injEq] at h
      subst h
      simpa using ha

theorem dropWhile_eq_self (p : Char → Bool) (l : List Char)
    (h : ∀ c, l.head? = some c → p c = false) : l.dropWhile p = l := by
  cases l with
  | nil => rfl
  | cons a l =>
    rw [List.dropWhile_cons]
    simp [h a rfl]

theorem dropWhile_suffix_decomp (p : Char → Bool) (l : List Char) :
    ∃ u, l = u ++ l.dropWhile p := by
  induction l with
  | nil => exact ⟨[], rfl⟩
  | cons a l ih =>
    rw [List.dropWhile_cons]
    by_cases ha : p a = true
    · obtain ⟨u, hu⟩ := ih
      exact ⟨a :: u, by simp [ha, ← hu]⟩
    · exact ⟨[], by simp [ha]⟩

theorem pyStripCh_revhead (l : List Char) {c : Char}
    (h : (pyStripCh l).reverse.head? = some c) : isPyWs c = false := by
  unfold pyStripCh at h
  rw [List.reverse_reverse] at h
  exact dropWhile_head?_not _ _ h

theorem pyStripCh_head (l : List Char) {c : Char}
    (h : (pyStripCh l).head? = some c) : isPyWs c = false := by
  unfold pyStripCh at h
  obtain ⟨u, hu⟩ := dropWhile_suffix_decomp isPyWs (l.dropWhile isPyWs).reverse
  set y := (l.dropWhile isPyWs).reverse.dropWhile isPyWs with hy
  have hmid : l.dropWhile isPyWs = y.reverse ++ u.reverse := by
    have := congrArg List.reverse hu
    rwa [List.reverse_reverse, List.reverse_append] at this
  cases hyr : y.reverse.head? with
  | none =>
    rw [hyr] at h
    exact absurd h (by simp)
  | some d =>
    have hne : y.reverse ≠ [] := by
      intro he
      rw [he] at hyr
      exact absurd hyr (by simp)
    have hmh : (l.dropWhile isPyWs).head? = some d := by
      rw [hmid, List.head?_append_of_ne_nil _ hne, hyr]
    have := dropWhile_head?_not isPyWs l hmh
    rw [hyr] at h
    cases h
    exact this

theorem noEdgeWs_pyStripCh (l : List Char) : noEdgeWs (pyStripCh l) = true := by
  unfold noEdgeWs
  apply Bool.and_eq_true_iff.mpr
  constructor
  · cases hh : (pyStripCh l).head? with
    | none => simp
    | some c => simp [pyStripCh_head l hh]
  · cases hh : (pyStripCh l).getLast? with
    | none => simp
    | some c =>
      have : (pyStripCh l).reverse.head? = some c := by
        rw [List.head?_reverse]
        exact hh
      simp [pyStripCh_revhead l this]

theorem pyStripCh_infix_decomp (l : List Char) :
    ∃ u v, l = u ++ pyStripCh l ++ v := by
  obtain ⟨u, hu⟩ := dropWhile_suffix_decomp isPyWs l
  obtain ⟨w, hw⟩ := dropWhile_suffix_decomp isPyWs (l.dropWhile isPyWs).reverse
  have hmid : l.dropWhile isPyWs = pyStripCh l ++ w.reverse := by
    unfold pyStripCh
    have := congrArg List.reverse hw
    rwa [List.reverse_reverse, List.reverse_append] at this
  refine ⟨u, w.reverse, ?_⟩
  conv_lhs => rw [hu, hmid]
  rw [List.append_assoc]

theorem pyStripCh_idem (l : List Char) : pyStripCh (pyStripCh l) = pyStripCh l := by
  conv_lhs => rw [pyStripCh]
  rw [dropWhile_eq_self isPyWs (pyStripCh l) (fun c hc => pyStripCh_head l hc)]
  rw [dropWhile_eq_self isPyWs (pyStripCh l).reverse
    (fun c hc => pyStripCh_revhead l hc)]
  exact List.reverse_reverse _

theorem artMatch_append {t : List Char} (v : List Char)
    (h : (artMatch t).isSome = true) : (artMatch (t ++ v)).isSome = true := by
  unfold artMatch at h ⊢
  split at h
  · rename_i a b rest
    split at h
    · rename_i hhex
      simp only [List.cons_append]
      rw [if_pos hhex]
      simp
    · simp at h
  · rename_i a b rest
    split at h
    · rename_i hhex
      simp only [List.cons_append]
      rw [if_pos hhex]
      simp
    · simp at h
  · simp at h

theorem hasArt_append_right {t : List Char} (v : List Char)
    (h : hasArtCh t = true) : hasArtCh (t ++ v) = true := by
  induction t with
  | nil => simp [hasArtCh] at h
  | cons c cs ih =>
    rw [hasArtCh] at h
    rcases Bool.or_eq_true_iff.mp h with h1 | h2
    · rw [List.cons_append, hasArtCh]
      have := artMatch_append v h1
      rw [List.cons_append] at this
      simp [this]
    · rw [List.cons_append, hasArtCh]
      simp [ih h2]

theorem hasArt_append_left (u : List Char) {t : List Char}
    (h : hasArtCh t = true) : hasArtCh (u ++ t) = true := by
  induction u with
  | nil => simpa using h
  | cons a u ih =>
    rw [List.cons_append, hasArtCh]
    simp [ih]

theorem hasArt_pyStripCh (l : List Char) (h : hasArtCh l = false) :
    hasArtCh (pyStripCh l) = false := by
  by_contra hc
  have hc' : hasArtCh (pyStripCh l) = true := by
    cases hx : hasArtCh (pyStripCh l)
    · exact absurd hx hc
    · rfl
  obtain ⟨u, v, huv⟩ := pyStripCh_infix_decomp l
  have : hasArtCh l = true := by
    rw [huv, List.append_assoc]
    exact hasArt_append_left u (hasArt_append_right v hc')
  rw [this] at h
  cases h

theorem removeArtFuel_id (fuel : Nat) (l : List Char) (h : hasArtCh l = false) :
    removeArtFuel fuel l = l := by
  induction fuel generalizing l with
  | zero => rfl
  | succ n ih =>
    cases l with
    | nil => rfl
    | cons c cs =>
      rw [hasArtCh] at h
      have h1 : artMatch (c :: cs) = none := by
        cases hm : artMatch (c :: cs)
        · rfl
        · rw [hm] at h
          simp at h
      have h2 : hasArtCh cs = false := by
        cases hm : hasArtCh cs
        · rfl
        · rw [hm] at h
          simp at h
      rw [removeArtFuel, h1, ih cs h2]

theorem removeArtCh_id (l : List Char) (h : hasArtCh l = false) :
    removeArtCh l = l :=
  removeArtFuel_id l.length l h

theorem hasArt_data_pyStrip (s : String) (h : hasArtCh s.data = false) :
    hasArtCh (pyStripCh s.data) = false :=
  hasArt_pyStripCh s.data h

theorem clean_text_value_of_no_art (s : String) (h : hasArtCh s.data = false) :
    clean_text_value (some s) = String.mk (pyStripCh s.data) := by
  unfold clean_text_value
  rw [Option.getD_some, removeArtCh_id _ (hasArt_data_pyStrip s h)]

/-! ## Lemmas about the first-winner argmax -/

theorem listKeyMax_nil (k : α → Nat) : listKeyMax k [] = 0 := rfl

theorem listKeyMax_cons (k : α → Nat) (y : α) (ys : List α) :
    listKeyMax k (y :: ys) = max (k y) (listKeyMax k ys) := rfl

theorem keyMax_attained (k : α → Nat) (l : List α) (h : listKeyMax k l ≠ 0) :
    ∃ x ∈ l, listKeyMax k l ≤ k x := by
  induction l with
  | nil => simp [listKeyMax_nil] at h
  | cons y ys ih =>
    rw [listKeyMax_cons] at h ⊢
    by_cases hc : listKeyMax k ys ≤ k y
    · exact ⟨y, List.mem_cons_self y ys, by omega⟩
    · obtain ⟨x, hx, hle⟩ := ih (by omega)
      exact ⟨x, List.mem_cons_of_mem y hx, by omega⟩

theorem le_keyMax_of_mem (k : α → Nat) {l : List α} {x : α} (h : x ∈ l) :
    k x ≤ listKeyMax k l := by
  induction l with
  | nil => cases h
  | cons y ys ih =>
    rw [listKeyMax_cons]
    rcases List.mem_cons.mp h with h1 | h2
    · subst h1; omega
    · have := ih h2; omega

theorem keyMax_eq_zero_iff (k : α → Nat) (l : List α) :
    listKeyMax k l = 0 ↔ ∀ x ∈ l, k x = 0 := by
  induction l with
  | nil => simp [listKeyMax_nil]
  | cons y ys ih =>
    rw [listKeyMax_cons]
    constructor
    · intro h x hx
      rcases List.mem_cons.mp hx with h1 | h2
      · subst h1; omega
      · exact (ih.mp (by omega)) x h2
    · intro h
      have h1 := h y (List.mem_cons_self y ys)
      have h2 := ih.mpr (fun x hx => h x (List.mem_cons_of_mem y hx))
      omega

/-- The Python `max(xs, key=k)` fold from a seed `b` keeps `b` when no key
exceeds `k b`, and otherwise lands on the first list element attaining the
maximal key. -/
theorem pyFold_max (k : α → Nat) (xs : List α) : ∀ b : α,
    xs.foldl (fun b y => if k b < k y then y else b) b =
      if listKeyMax k xs ≤ k b then b
      else (xs.find? fun x => decide (listKeyMax k xs ≤ k x)).getD b := by
  induction xs with
  | nil =>
    intro b
    simp [listKeyMax_nil]
  | cons y ys ih =>
    intro b
    rw [List.foldl_cons]
    by_cases hby : k b < k y
    · rw [if_pos hby, ih y]
      by_cases hKy : listKeyMax k ys ≤ k y
      · rw [if_pos hKy]
        have hmax : listKeyMax k (y :: ys) = k y := by rw [listKeyMax_cons]; omega
        rw [hmax, if_neg (by omega : ¬ k y ≤ k b),
          List.find?_cons_of_pos _ (by simp), Option.getD_some]
      · rw [if_neg hKy]
        have hmax : listKeyMax k (y :: ys) = listKeyMax k ys := by
          rw [listKeyMax_cons]; omega
        rw [hmax, if_neg (by omega : ¬ listKeyMax k ys ≤ k b),
          List.find?_cons_of_neg _ (by simp only [decide_eq_true_eq]; omega)]
        obtain ⟨x, hx, hle⟩ := keyMax_attained k ys (by omega)
        have hfs : (ys.find? fun x => decide (listKeyMax k ys ≤ k x)).isSome = true :=
          List.find?_isSome.mpr ⟨x, hx, decide_eq_true hle⟩
        obtain ⟨z, hz⟩ := Option.isSome_iff_exists.mp hfs
        rw [hz, Option.getD_some, Option.getD_some]
    · rw [if_neg hby, ih b]
      by_cases hK : listKeyMax k ys ≤ k b
      · rw [if_pos hK]
        have : listKeyMax k (y :: ys) ≤ k b := by rw [listKeyMax_cons]; omega
        rw [if_pos this]
      · rw [if_neg hK]
        have hmax : listKeyMax k (y :: ys) = listKeyMax k ys := by
          rw [listKeyMax_cons]; omega
        rw [hmax, if_neg hK, List.find?_cons_of_neg _ (by simp only [decide_eq_true_eq]; omega)]

/-- Python's `max(l, key=k)` returns the first element with maximal key. -/
theorem pyArgmax_eq_argmaxFirst (k : α → Nat) (l : List α) :
    pyArgmax k l = argmaxFirst k l := by
  cases l with
  | nil => rfl
  | cons y ys =>
    rw [pyArgmax, argmaxFirst, pyFold_max]
    by_cases hKy : listKeyMax k ys ≤ k y
    · have hmax : listKeyMax k (y :: ys) = k y := by rw [listKeyMax_cons]; omega
      rw [if_pos hKy, hmax, List.find?_cons_of_pos _ (by simp)]
    · have hmax : listKeyMax k (y :: ys) = listKeyMax k ys := by
        rw [listKeyMax_cons]; omega
      rw [if_neg hKy, hmax, List.find?_cons_of_neg _ (by simp only [decide_eq_true_eq]; omega)]
      obtain ⟨x, hx, hle⟩ := keyMax_attained k ys (by omega)
      have hfs : (ys.find? fun x => decide (listKeyMax k ys ≤ k x)).isSome = true :=
        List.find?_isSome.mpr ⟨x, hx, decide_eq_true hle⟩
      obtain ⟨z, hz⟩ := Option.isSome_iff_exists.mp hfs
      rw [hz, Option.getD_some]

/-! ## Lemmas about extract_journal_with_most_drugs -/

theorem specDistinctCount_eq (e : DrugEntry) :
    specDistinctCount e = distinctJournalCount e := by
  unfold specDistinctCount distinctJournalCount
  exact List.card_toFinset _

/-- The loop of `extract_journal_with_most_drugs` from any accumulator:
it keeps the accumulator when no drug beats it, and otherwise lands on the
first drug attaining the maximal distinct-journal count, recording that
drug's most-repeated mention's journal. -/
theorem gFold_max (g : DrugGraph) : ∀ (n : Nat) (j : Option String),
    List.foldl gStep (n, j) g =
      if listKeyMax (fun p => distinctJournalCount p.2) g ≤ n then (n, j)
      else (listKeyMax (fun p => distinctJournalCount p.2) g,
        (List.find?
          (fun p => decide (listKeyMax (fun p => distinctJournalCount p.2) g ≤
            distinctJournalCount p.2)) g).bind jmostCode) := by
  induction g with
  | nil =>
    intro n j
    simp [listKeyMax_nil]
  | cons p g ih =>
    intro n j
    rw [List.foldl_cons]
    by_cases hnu : n < distinctJournalCount p.2
    · have hstep : gStep (n, j) p = (distinctJournalCount p.2, jmostCode p) := by
        unfold gStep
        rw [if_pos hnu]
      rw [hstep, ih]
      by_cases hKu :
          listKeyMax (fun p => distinctJournalCount p.2) g ≤ distinctJournalCount p.2
      · rw [if_pos hKu]
        have hmax : listKeyMax (fun p => distinctJournalCount p.2) (p :: g) =
            distinctJournalCount p.2 := by
          rw [listKeyMax_cons]; omega
        rw [hmax, if_neg (by omega), List.find?_cons_of_pos _ (by simp)]
        rfl
      · rw [if_neg hKu]
        have hmax : listKeyMax (fun p => distinctJournalCount p.2) (p :: g) =
            listKeyMax (fun p => distinctJournalCount p.2) g := by
          rw [listKeyMax_cons]; omega
        rw [hmax, if_neg (by omega),
          List.find?_cons_of_neg _ (by simp only [decide_eq_true_eq]; omega)]
    · have hstep : gStep (n, j) p = (n, j) := by
        unfold gStep
        rw [if_neg hnu]
      rw [hstep, ih]
      by_cases hK : listKeyMax (fun p => distinctJournalCount p.2) g ≤ n
      · rw [if_pos hK, if_pos (by rw [listKeyMax_cons]; omega)]
      · rw [if_neg hK]
        have hmax : listKeyMax (fun p => distinctJournalCount p.2) (p :: g) =
            listKeyMax (fun p => distinctJournalCount p.2) g := by
          rw [listKeyMax_cons]; omega
        rw [hmax, if_neg hK,
          List.find?_cons_of_neg _ (by simp only [decide_eq_true_eq]; omega)]

theorem jmostCode_eq_spec (p : String × DrugEntry) :
    jmostCode p = (mostFrequentMention (combinedMentions p.2)).map Mention.journal := by
  unfold jmostCode mostFrequentMention
  rw [pyArgmax_eq_argmaxFirst]

/-- The code's fold equals the spec's two-phase description. -/
theorem extract_eq_mostMentioningJournal (g : DrugGraph) :
    extract_journal_with_most_drugs g = mostMentioningJournal g := by
  unfold extract_journal_with_most_drugs mostMentioningJournal selectedDrug maxDistinctCount
  simp only [specDistinctCount_eq]
  rw [gFold_max]
  by_cases h0 : listKeyMax (fun p : String × DrugEntry => distinctJournalCount p.2) g = 0
  · rw [if_pos (by omega), if_pos h0]
    rfl
  · rw [if_neg (by omega), if_neg h0]
    have hj : jmostCode =
        fun p : String × DrugEntry =>
          (mostFrequentMention (combinedMentions p.2)).map Mention.journal :=
      funext jmostCode_eq_spec
    rw [hj]

theorem distinctJournalCount_eq_zero (e : DrugEntry) :
    distinctJournalCount e = 0 ↔ combinedMentions e = [] := by
  unfold distinctJournalCount
  rw [List.length_eq_zero, List.dedup_eq_nil, List.map_eq_nil_iff]

theorem occCount_pos_of_mem {x : Mention} {l : List Mention} (h : x ∈ l) :
    1 ≤ occCount x l := by
  induction l with
  | nil => cases h
  | cons y ys ih =>
    rw [occCount]
    rcases List.mem_cons.mp h with h1 | h2
    · rw [if_pos h1.symm]
      omega
    · have := ih h2
      omega

theorem mostFrequentMention_isSome {ms : List Mention} (h : ms ≠ []) :
    ∃ m, mostFrequentMention ms = some m := by
  cases ms with
  | nil => exact absurd rfl h
  | cons y ys =>
    have h2 : listKeyMax (fun x => occCount x (y :: ys)) (y :: ys) ≠ 0 := by
      have h1 : 1 ≤ occCount y (y :: ys) := occCount_pos_of_mem (List.mem_cons_self y ys)
      have h3 := le_keyMax_of_mem (fun x => occCount x (y :: ys)) (List.mem_cons_self y ys)
      simp only [] at h3
      omega
    obtain ⟨x, hx, hle⟩ := keyMax_attained _ _ h2
    have hfs : ((y :: ys).find? fun m =>
        decide (listKeyMax (fun x => occCount x (y :: ys)) (y :: ys) ≤
          occCount m (y :: ys))).isSome = true :=
      List.find?_isSome.mpr ⟨x, hx, decide_eq_true hle⟩
    exact Option.isSome_iff_exists.mp hfs

/-- `mostMentioningJournal` returns no journal exactly on graphs whose
combined mention lists are all empty. -/
theorem mostMentioningJournal_none_iff (g : DrugGraph) :
    mostMentioningJournal g = none ↔ ∀ p ∈ g, combinedMentions p.2 = [] := by
  unfold mostMentioningJournal selectedDrug maxDistinctCount
  simp only [specDistinctCount_eq]
  by_cases h0 : listKeyMax (fun p : String × DrugEntry => distinctJournalCount p.2) g = 0
  · rw [if_pos h0]
    constructor
    · intro _ p hp
      have := (keyMax_eq_zero_iff _ g).mp h0 p hp
      exact (distinctJournalCount_eq_zero p.2).mp this
    · intro _
      rfl
  · rw [if_neg h0]
    constructor
    · intro hb
      obtain ⟨x, hx, hle⟩ := keyMax_attained _ g h0
      have hfs : (g.find? fun p =>
          decide (listKeyMax (fun p : String × DrugEntry => distinctJournalCount p.2) g ≤
            distinctJournalCount p.2)).isSome = true :=
        List.find?_isSome.mpr ⟨x, hx, decide_eq_true hle⟩
      obtain ⟨q, hq⟩ := Option.isSome_iff_exists.mp hfs
      have hqK : listKeyMax (fun p : String × DrugEntry => distinctJournalCount p.2) g ≤
          distinctJournalCount q.2 := by
        have := List.find?_some hq
        simpa using this
      have hqne : combinedMentions q.2 ≠ [] := by
        intro he
        have := (distinctJournalCount_eq_zero q.2).mpr he
        omega
      obtain ⟨m, hm⟩ := mostFrequentMention_isSome hqne
      rw [hq] at hb
      simp [hm] at hb
    · intro hall
      have : listKeyMax (fun p : String × DrugEntry => distinctJournalCount p.2) g = 0 :=
        (keyMax_eq_zero_iff _ g).mpr
          (fun p hp => (distinctJournalCount_eq_zero p.2).mpr (hall p hp))
      exact absurd this h0

/-! ## Claim theorems -/

/-- C1: `extract_journal_with_most_drugs` computes exactly the spec's
description — select the first drug (in graph order) whose combined
mention list has the maximum number of distinct journals (only a strictly
greater count replaces the running maximum), then return the journal of
the first mention record of that drug's combined list with the maximal
whole-record repeat count — and on the section-8 fixture graph it returns
"The journal of maternal-fetal & neonatal medicine". -/
theorem extract_journal_refines_spec :
    (∀ g : DrugGraph, extract_journal_with_most_drugs g = mostMentioningJournal g) ∧
    extract_journal_with_most_drugs fixtureGraph =
      some "The journal of maternal-fetal & neonatal medicine" :=
  ⟨extract_eq_mostMentioningJournal, by decide⟩

/-- C10: the inner max-by-frequency selection is reached only for drugs
with at least one mention, so `extract_journal_with_most_drugs` is total:
it returns `none` exactly when every drug's combined mention list is empty
(in particular on the empty graph), and returns a journal as soon as some
drug has a mention. -/
theorem extract_journal_total :
    (∀ g : DrugGraph,
      (extract_journal_with_most_drugs g = none ↔ ∀ p ∈ g, combinedMentions p.2 = [])) ∧
    extract_journal_with_most_drugs ([] : DrugGraph) = none ∧
    (∀ g : DrugGraph, (∃ p ∈ g, combinedMentions p.2 ≠ []) →
      ∃ j, extract_journal_with_most_drugs g = some j) := by
  refine ⟨?_, by decide, ?_⟩
  · intro g
    rw [extract_eq_mostMentioningJournal]
    exact mostMentioningJournal_none_iff g
  · intro g h
    obtain ⟨p, hp, hne⟩ := h
    rw [extract_eq_mostMentioningJournal]
    cases hv : mostMentioningJournal g with
    | none => exact absurd ((mostMentioningJournal_none_iff g).mp hv p hp) hne
    | some j => exact ⟨j, rfl⟩

/-- Witness for `extract_journal_total` on the fixture graph, which has a
drug with mentions. -/
theorem extract_journal_total_witness :
    ∃ j, extract_journal_with_most_drugs fixtureGraph = some j :=
  extract_journal_total.2.2 fixtureGraph (by decide)

/-- C8: the table-level text normalizer is claimed to return, for every
text value, a string free of leading/trailing whitespace and free of
byte-escape artifact substrings.  Counterexample: stripping happens before
artifact removal, so on `"a \x5cx\x5cxabc3 \x5cxab"` the removal of the two
`\x5cxab` matches leaves the trailing space exposed and splices the
remaining text into a fresh `\x5cxc3` artifact: the result is
`"a \x5cxc3 "`, which ends in whitespace and contains an artifact. -/
theorem text_normalizer_edge_claim_fails :
    clean_text_value (some "a \\x\\xabc3 \\xab") = "a \\xc3 " ∧
    noEdgeWs (clean_text_value (some "a \\x\\xabc3 \\xab")).data = false ∧
    hasArtCh (clean_text_value (some "a \\x\\xabc3 \\xab")).data = true := by
  refine ⟨by decide, by decide, by decide⟩

/-- C8 (amended): an absent value yields the empty string, and whenever the
input contains no byte-escape artifact the result is exactly the
whitespace-stripped input — in particular it has no leading or trailing
whitespace and no artifact substring.  (When the input does contain
artifacts, their removal can expose edge whitespace and leave
artifact-shaped substrings, as the counterexample shows.) -/
theorem clean_text_value_spec :
    clean_text_value none = "" ∧
    ∀ s : String, hasArtCh s.data = false →
      (clean_text_value (some s)).data = pyStripCh s.data ∧
      noEdgeWs (clean_text_value (some s)).data = true ∧
      hasArtCh (clean_text_value (some s)).data = false := by
  refine ⟨by decide, fun s h => ?_⟩
  have hv := clean_text_value_of_no_art s h
  have hd : (clean_text_value (some s)).data = pyStripCh s.data := by
    rw [hv]
  refine ⟨hd, ?_, ?_⟩
  · rw [hd]
    exact noEdgeWs_pyStripCh s.data
  · rw [hd]
    exact hasArt_data_pyStrip s h

/-- Witness for `clean_text_value_spec` at a concrete artifact-free input. -/
theorem clean_text_value_spec_witness :
    hasArtCh ("   Test Title   " : String).data = false ∧
    (clean_text_value (some "   Test Title   ")).data =
      pyStripCh ("   Test Title   " : String).data :=
  ⟨by decide, (clean_text_value_spec.2 "   Test Title   " (by decide)).1⟩

/-- C9: on inputs with zero byte-escape artifacts the text normalizer is
idempotent: normalizing an already-normalized string changes nothing. -/
theorem clean_text_value_idem (s : String) (h : hasArtCh s.data = false) :
    clean_text_value (some (clean_text_value (some s))) = clean_text_value (some s) := by
  have hv := clean_text_value_of_no_art s h
  rw [hv]
  have hdata : (String.mk (pyStripCh s.data)).data = pyStripCh s.data := rfl
  have hstripped : hasArtCh (String.mk (pyStripCh s.data)).data = false := by
    rw [hdata]
    exact hasArt_data_pyStrip s h
  rw [clean_text_value_of_no_art _ hstripped, hdata, pyStripCh_idem]

/-- Witness for `clean_text_value_idem` at a concrete artifact-free input. -/
theorem clean_text_value_idem_witness :
    hasArtCh ("  nursing  " : String).data = false ∧
    clean_text_value (some (clean_text_value (some "  nursing  "))) =
      clean_text_value (some "  nursing  ") :=
  ⟨by decide, clean_text_value_idem "  nursing  " (by decide)⟩

/-! ## Lemmas and claims for find_related_drugs -/

/-- C2 part 1: membership characterization.  A drug code is related to the
target exactly when the target is in the graph, the code differs from the
target, and some entry of that code shares a pubmed journal with the
target's entry. -/
theorem find_related_mem_iff (g : DrugGraph) (t d : String) :
    d ∈ find_related_drugs g t ↔
      ∃ te, lookupEntry g t = some te ∧
        ∃ e, (d, e) ∈ g ∧ d ≠ t ∧
          ∃ j, j ∈ pubmedJournals e ∧ j ∈ pubmedJournals te := by
  unfold find_related_drugs
  cases hlk : lookupEntry g t with
  | none => simp [hlk]
  | some te =>
    simp only [hlk, List.mem_map, List.mem_filter, Option.some.injEq]
    constructor
    · rintro ⟨p, ⟨hpg, hcond⟩, rfl⟩
      rw [Bool.and_eq_true] at hcond
      obtain ⟨hne, hany⟩ := hcond
      rw [bne_iff_ne] at hne
      rw [List.any_eq_true] at hany
      obtain ⟨j, hj, hjt⟩ := hany
      rw [List.any_eq_true] at hjt
      obtain ⟨x, hx, hxj⟩ := hjt
      rw [beq_iff_eq] at hxj
      subst hxj
      exact ⟨te, rfl, p.2, by simpa using hpg, hne, x, hj, hx⟩
    · rintro ⟨te', hte, e, heg, hne, j, hje, hjt⟩
      subst hte
      refine ⟨(d, e), ⟨heg, ?_⟩, rfl⟩
      rw [Bool.and_eq_true]
      refine ⟨by rwa [bne_iff_ne], ?_⟩
      rw [List.any_eq_true]
      refine ⟨j, hje, ?_⟩
      rw [List.any_eq_true]
      exact ⟨j, hjt, by simp⟩

/-- C2 part 2: an absent target yields the empty result. -/
theorem find_related_absent (g : DrugGraph) (t : String)
    (h : lookupEntry g t = none) : find_related_drugs g t = [] := by
  unfold find_related_drugs
  rw [h]

theorem lookup_setTrials (f : String → DrugEntry → List Mention) (g : DrugGraph)
    (t : String) :
    lookupEntry (setTrials f g) t =
      (List.find? (fun p => p.1 == t) g).map
        (fun p => { pubmed := p.2.pubmed, clinical_trials := f p.1 p.2 : DrugEntry }) := by
  unfold lookupEntry setTrials
  induction g with
  | nil => rfl
  | cons r g ih =>
    rw [List.map_cons]
    by_cases hr : (r.1 == t) = true
    · simp only [List.find?_cons, hr]
      rfl
    · have hr' : (r.1 == t) = false := by
        cases h : (r.1 == t)
        · rfl
        · exact absurd h hr
      simp only [List.find?_cons, hr']
      exact ih

/-- Key/pubmed projections of a filtered graph are unchanged by rewriting
clinical-trials lists. -/
theorem filter_map_keys_setTrials (f : String → DrugEntry → List Mention)
    (t : String) (pj : List String) (g : DrugGraph) :
    List.map (fun p => p.1)
      (List.filter
        (fun p => p.1 != t && (pubmedJournals p.2).any fun j => pj.any fun x => x == j)
        (setTrials f g)) =
    List.map (fun p => p.1)
      (List.filter
        (fun p => p.1 != t && (pubmedJournals p.2).any fun j => pj.any fun x => x == j)
        g) := by
  induction g with
  | nil => rfl
  | cons r g ih =>
    show List.map _ (List.filter _
      ((r.1, { pubmed := r.2.pubmed, clinical_trials := f r.1 r.2 : DrugEntry }) ::
        setTrials f g)) = _
    by_cases hc : (r.1 != t &&
        (pubmedJournals r.2).any fun j => pj.any fun x => x == j) = true
    · have hc2 : ((fun p : String × DrugEntry =>
          p.1 != t && (pubmedJournals p.2).any fun j => pj.any fun x => x == j)
          (r.1, { pubmed := r.2.pubmed, clinical_trials := f r.1 r.2 : DrugEntry })) = true := hc
      simp only [List.filter_cons, hc, hc2, if_true, List.map_cons]
      rw [ih]
    · have hc' : (r.1 != t &&
          (pubmedJournals r.2).any fun j => pj.any fun x => x == j) = false := by
        cases h : (r.1 != t && (pubmedJournals r.2).any fun j => pj.any fun x => x == j)
        · rfl
        · exact absurd h hc
      have hc2 : ((fun p : String × DrugEntry =>
          p.1 != t && (pubmedJournals p.2).any fun j => pj.any fun x => x == j)
          (r.1, { pubmed := r.2.pubmed, clinical_trials := f r.1 r.2 : DrugEntry })) = false := hc'
      simp only [List.filter_cons, hc', hc2, if_false]
      exact ih

/-- C2 part 3: clinical-trial mentions never influence the result —
arbitrarily rewriting every entry's clinical-trials list leaves the result
unchanged. -/
theorem find_related_setTrials (f : String → DrugEntry → List Mention) (g : DrugGraph)
    (t : String) :
    find_related_drugs (setTrials f g) t = find_related_drugs g t := by
  unfold find_related_drugs
  rw [lookup_setTrials]
  cases hf : List.find? (fun p => p.1 == t) g with
  | none =>
    have hlq : lookupEntry g t = none := by
      unfold lookupEntry
      rw [hf]
      rfl
    rw [hlq]
    rfl
  | some q =>
    have hlq : lookupEntry g t = some q.2 := by
      unfold lookupEntry
      rw [hf]
      rfl
    rw [hlq]
    simp only [Option.map_some']
    exact filter_map_keys_setTrials f t (pubmedJournals q.2) g

/-- C2: `find_related_drugs` returns exactly the drug codes other than the
target whose pubmed journal set intersects the target's pubmed journal
set; the result is empty when the target is absent; clinical-trial
mentions never influence the result; on the fixture graph the result for
"A03BA" is {"R01AD"} and for "6302001" the empty set. -/
theorem find_related_drugs_spec :
    (∀ (g : DrugGraph) (t d : String),
      d ∈ find_related_drugs g t ↔
        ∃ te, lookupEntry g t = some te ∧
          ∃ e, (d, e) ∈ g ∧ d ≠ t ∧
            ∃ j, j ∈ pubmedJournals e ∧ j ∈ pubmedJournals te) ∧
    (∀ (g : DrugGraph) (t : String),
      lookupEntry g t = none → find_related_drugs g t = []) ∧
    (∀ (f : String → DrugEntry → List Mention) (g : DrugGraph) (t : String),
      find_related_drugs (setTrials f g) t = find_related_drugs g t) ∧
    find_related_drugs fixtureGraph "A03BA" = ["R01AD"] ∧
    find_related_drugs fixtureGraph "6302001" = [] :=
  ⟨find_related_mem_iff, find_related_absent, find_related_setTrials,
    by decide, by decide⟩

/-- Witness for `find_related_drugs_spec` at a target absent from the
fixture graph. -/
theorem find_related_drugs_spec_witness :
    lookupEntry fixtureGraph "A04AD" = none ∧
    find_related_drugs fixtureGraph "A04AD" = [] :=
  ⟨by decide, find_related_drugs_spec.2.1 fixtureGraph "A04AD" (by decide)⟩

/-! ## Lemmas and claims for create_drug_graph -/

/-- After `upsert g k e` the key `k` is bound. -/
theorem upsert_mem_key (g : DrugGraph) (k : String) (e : DrugEntry) :
    ∃ e', (k, e') ∈ upsert g k e := by
  unfold upsert
  by_cases hg : (List.any g fun p => p.1 == k) = true
  · rw [if_pos hg]
    rw [List.any_eq_true] at hg
    obtain ⟨p, hp, hpk⟩ := hg
    refine ⟨e, ?_⟩
    rw [List.mem_map]
    exact ⟨p, hp, by rw [if_pos hpk]⟩
  · rw [if_neg hg]
    exact ⟨e, List.mem_append_right _ (by simp)⟩

/-- `upsert` never removes a key. -/
theorem upsert_mem_preserve {g : DrugGraph} {k0 : String} {e0 : DrugEntry}
    (h : (k0, e0) ∈ g) (k : String) (e : DrugEntry) :
    ∃ e', (k0, e') ∈ upsert g k e := by
  unfold upsert
  by_cases hg : (List.any g fun p => p.1 == k) = true
  · rw [if_pos hg]
    by_cases hk : ((k0, e0).1 == k) = true
    · refine ⟨e, ?_⟩
      rw [List.mem_map]
      refine ⟨(k0, e0), h, ?_⟩
      rw [if_pos hk]
      have : k0 = k := by
        have := hk
        rw [beq_iff_eq] at this
        exact this
      rw [this]
    · refine ⟨e0, ?_⟩
      rw [List.mem_map]
      refine ⟨(k0, e0), h, ?_⟩
      rw [if_neg hk]
  · rw [if_neg hg]
    exact ⟨e0, List.mem_append_left _ h⟩

/-- The graph-building fold never removes a key. -/
theorem create_fold_preserve (drugs : List DrugRow) (pubmed trials : List SrcRow) :
    ∀ (g : DrugGraph) (k0 : String), (∃ e, (k0, e) ∈ g) →
      ∃ e, (k0, e) ∈
        drugs.foldl (fun g dr => upsert g dr.atccode (entryFor dr pubmed trials)) g := by
  induction drugs with
  | nil =>
    intro g k0 h
    exact h
  | cons d ds ih =>
    intro g k0 h
    rw [List.foldl_cons]
    obtain ⟨e, he⟩ := h
    exact ih _ k0 (upsert_mem_preserve he _ _)

/-- C3: every drug of the registry table becomes a key of the built graph
(its entry by construction carries both a pubmed and a clinical-trials
list), for every publications and trials table — including ones producing
zero mentions: no drug is dropped. -/
theorem drug_graph_complete (drugs : List DrugRow) (pubmed trials : List SrcRow)
    (dr : DrugRow) (h : dr ∈ drugs) :
    ∃ e, (dr.atccode, e) ∈ create_drug_graph drugs pubmed trials := by
  unfold create_drug_graph
  have H : ∀ l : List DrugRow, dr ∈ l → ∀ g : DrugGraph,
      ∃ e, (dr.atccode, e) ∈
        l.foldl (fun g d => upsert g d.atccode (entryFor d pubmed trials)) g := by
    intro l
    induction l with
    | nil =>
      intro h'
      cases h'
    | cons d ds ih =>
      intro h' g
      rw [List.foldl_cons]
      rcases List.mem_cons.mp h' with h1 | h2
      · subst h1
        exact create_fold_preserve ds pubmed trials _ _ (upsert_mem_key g _ _)
      · exact ih h2 _
  exact H drugs h []

/-- Witness for `drug_graph_complete`: a drug with zero mentions (empty
source tables) still gets its key, with both lists present and empty. -/
theorem drug_graph_complete_witness :
    ∃ e, ("6302001", e) ∈
      create_drug_graph [{ atccode := "6302001", drug := "ISOPRENALINE" }] [] [] :=
  drug_graph_complete [{ atccode := "6302001", drug := "ISOPRENALINE" }] [] []
    { atccode := "6302001", drug := "ISOPRENALINE" } (by decide)

/-- C4 part 1: a mention is collected for a drug name exactly when it is
the field-for-field conversion of a source row whose title is present and
contains the name case-insensitively. -/
theorem related_mention_iff (rows : List SrcRow) (name : String) (m : Mention) :
    m ∈ extract_related_data (relatedRows rows name) ↔
      ∃ r, r ∈ rows ∧ (∃ t, r.title = some t ∧
        isInfixCh (toLowerCh name.data) (toLowerCh t.data) = true) ∧ m = toMention r := by
  unfold extract_related_data relatedRows
  rw [List.mem_map]
  constructor
  · rintro ⟨r, hr, rfl⟩
    rw [List.mem_filter] at hr
    obtain ⟨hrg, hmatch⟩ := hr
    unfold strContainsCI at hmatch
    cases ht : r.title with
    | none =>
      rw [ht] at hmatch
      exact absurd hmatch (by simp)
    | some t0 =>
      rw [ht] at hmatch
      exact ⟨r, hrg, ⟨t0, ht, hmatch⟩, rfl⟩
  · rintro ⟨r, hrg, ⟨t0, ht, hm⟩, rfl⟩
    refine ⟨r, ?_, rfl⟩
    rw [List.mem_filter]
    refine ⟨hrg, ?_⟩
    unfold strContainsCI
    rw [ht]
    exact hm

/-- C4: title matching is a case-insensitive substring test on present
titles only, matched rows are converted field-for-field in source order
(the collected rows form a sublist of the table), and on the fixture the
Betamethasone/Ropivacaine trial appears exactly under BETAMETHASONE's
clinical-trials list and under no other drug. -/
theorem mention_matching_spec :
    (∀ (rows : List SrcRow) (name : String) (m : Mention),
      m ∈ extract_related_data (relatedRows rows name) ↔
        ∃ r, r ∈ rows ∧ (∃ t, r.title = some t ∧
          isInfixCh (toLowerCh name.data) (toLowerCh t.data) = true) ∧ m = toMention r) ∧
    (∀ (rows : List SrcRow) (name : String), List.Sublist (relatedRows rows name) rows) ∧
    ((lookupEntry (create_drug_graph drugsFixture3 [] trialsFixture) "R01AD").getD
        { pubmed := [], clinical_trials := [] }).clinical_trials = [mentionPreemptive] ∧
    (mentionPreemptive ∉
      ((lookupEntry (create_drug_graph drugsFixture3 [] trialsFixture) "A04AD").getD
        { pubmed := [], clinical_trials := [] }).clinical_trials) ∧
    (mentionPreemptive ∉
      ((lookupEntry (create_drug_graph drugsFixture3 [] trialsFixture) "A03BA").getD
        { pubmed := [], clinical_trials := [] }).clinical_trials) :=
  ⟨related_mention_iff, fun rows _ => List.filter_sublist rows,
    by decide, by decide, by decide⟩

/-- Witness for `mention_matching_spec`: the membership characterization
instantiated on the fixture trial table and BETAMETHASONE. -/
theorem mention_matching_spec_witness :
    mentionPreemptive ∈ extract_related_data (relatedRows trialsFixture "BETAMETHASONE") :=
  (mention_matching_spec.1 trialsFixture "BETAMETHASONE" mentionPreemptive).mpr (by decide)

/-! ## Lemmas and claims for create_hashed_uuid_for_nan -/

theorem create_hashed_length (rows : List RawRow) :
    (create_hashed_uuid_for_nan rows).length = rows.length := by
  induction rows with
  | nil => rfl
  | cons r rest ih =>
    unfold create_hashed_uuid_for_nan
    rw [List.length_cons, List.length_cons, ih]

/-- C5: the identity assigner keeps every row in place; a row already
carrying an identity is untouched; a row without one gets the identifier
derived by joining the other columns' values (in the fixed sorted column
order) with commas, MD5-hashing the UTF-8 bytes and mapping the hex digest
through a version-5 UUID under the fixed DNS namespace; and the derivation
is a function of the row content alone, so independently-copied rows with
identical content receive identical identifiers. -/
theorem identity_assigner_spec :
    (∀ rows : List RawRow, (create_hashed_uuid_for_nan rows).length = rows.length) ∧
    (∀ (rows : List RawRow) (i : Nat) (h1 : i < rows.length)
        (h2 : i < (create_hashed_uuid_for_nan rows).length),
      ((rows.get ⟨i, h1⟩).id ≠ none →
        (create_hashed_uuid_for_nan rows).get ⟨i, h2⟩ = rows.get ⟨i, h1⟩) ∧
      ((rows.get ⟨i, h1⟩).id = none →
        (create_hashed_uuid_for_nan rows).get ⟨i, h2⟩ =
          { id := some (hashedId (rows.get ⟨i, h1⟩).others)
            others := (rows.get ⟨i, h1⟩).others })) ∧
    (∀ r1 r2 : RawRow, r1.id = none → r2.id = none → r1.others = r2.others →
      (create_hashed_uuid_for_nan [r1]).map RawRow.id =
        (create_hashed_uuid_for_nan [r2]).map RawRow.id) := by
  refine ⟨create_hashed_length, ?_, ?_⟩
  · intro rows
    induction rows with
    | nil =>
      intro i h1 h2
      cases h1
    | cons r rest ih =>
      intro i h1 h2
      cases i with
      | zero =>
        constructor
        · intro hne
          show (match r.id with
            | some _ => r
            | none => { r with id := some (hashedId r.others) }) = r
          cases hid : r.id with
          | none => exact absurd hid hne
          | some v => rfl
        · intro hnone
          have hnone' : r.id = none := hnone
          show (match r.id with
            | some _ => r
            | none => { r with id := some (hashedId r.others) }) = _
          rw [hnone']
          rfl
      | succ n =>
        have h1' : n < rest.length := by
          rw [List.length_cons] at h1
          omega
        have h2' : n < (create_hashed_uuid_for_nan rest).length := by
          rw [create_hashed_length]
          exact h1'
        exact ih n h1' h2'
  · intro r1 r2 h1 h2 h3
    unfold create_hashed_uuid_for_nan
    rw [h1, h2, h3]

/-- Witness for `identity_assigner_spec`: the row of the reference data
whose id is missing receives exactly the identifier recorded in the
reference fixture (`uuid5` of the MD5 hex digest of its joined columns). -/
theorem identity_assigner_spec_witness :
    ((create_hashed_uuid_for_nan [rawRowNoId]).get ⟨0, by decide⟩).id =
      some "1e5361a6-edbe-58a4-bf9a-6a4ad5ffe973" := by
  have h := ((identity_assigner_spec.2.1 [rawRowNoId] 0 (by decide) (by decide)).2) (by decide)
  rw [h]
  show some (hashedId rawRowNoId.others) = _
  decide

/-! ## Lemmas and claims for date cleaning -/

theorem daysInMonth_ge_28 (y m : Nat) : 28 ≤ daysInMonth y m := by
  unfold daysInMonth
  split
  · split
    · omega
    · omega
  · split
    · omega
    · omega

/-- C7 part 1 (spec-modelled): an ambiguous numeric date — both leading
components at most 12 — with a trailing four-digit year is resolved
day-first: the first component becomes the day. -/
theorem resolve_ymd_dayfirst (d m y : Nat) (hd1 : 1 ≤ d) (hd : d ≤ 12)
    (hm1 : 1 ≤ m) (hm : m ≤ 12) (hy : 1000 ≤ y) :
    resolve_ymd [d, m, y] = Except.ok (y, m, d) := by
  have hday := daysInMonth_ge_28 y m
  have hv : validMonthDay y m d = true := by
    unfold validMonthDay
    simp only [Bool.and_eq_true, decide_eq_true_eq]
    omega
  show (if 1000 ≤ d then
      if validMonthDay d m y = true then Except.ok (d, m, y)
      else Except.error "DateParseError"
    else if 1000 ≤ y then
      if validMonthDay y m d = true then Except.ok (y, m, d)
      else if validMonthDay y d m = true then Except.ok (y, d, m)
      else Except.error "DateParseError"
    else Except.error "DateParseError") = Except.ok (y, m, d)
  rw [if_neg (by omega : ¬ 1000 ≤ d), if_pos hy, if_pos hv]

/-- C7 (spec-modelled): the date normalizer returns the contained calendar
date in ISO-8601 form, ignoring non-date tokens, and resolves day/month
ambiguity day-first; in particular "25/05/2020" gives "2020-05-25" and
"2022-01-01" gives "2022-01-01". -/
theorem normalize_date_spec :
    (∀ d m y : Nat, 1 ≤ d → d ≤ 12 → 1 ≤ m → m ≤ 12 → 1000 ≤ y →
      resolve_ymd [d, m, y] = Except.ok (y, m, d)) ∧
    fuzzy_string_to_iso8601 "25/05/2020" = Except.ok "2020-05-25" ∧
    fuzzy_string_to_iso8601 "2022-01-01" = Except.ok "2022-01-01" ∧
    fuzzy_string_to_iso8601 "05/03/2020" = Except.ok "2020-03-05" ∧
    fuzzy_string_to_iso8601 "on 25/05/2020." = Except.ok "2020-05-25" :=
  ⟨resolve_ymd_dayfirst, by decide, by decide, by decide, by decide⟩

/-- Witness for `normalize_date_spec` at the ambiguous components 5/3. -/
theorem normalize_date_spec_witness :
    resolve_ymd [5, 3, 2020] = Except.ok (2020, 3, 5) :=
  normalize_date_spec.1 5 3 2020 (by decide) (by decide) (by decide) (by decide) (by decide)

/-- C6 counterexample: one unparseable date value makes `clean_date` fail
for the whole column — the surviving rows are not returned, so the failure
does not degrade to exclusion of the failing row only. -/
theorem clean_date_aborts_whole_table :
    clean_date ["2022-01-01", "not a date", "25/05/2020"] =
      Except.error "DateParseError" ∧
    exceptOk (clean_date ["2022-01-01", "not a date", "25/05/2020"]) = false := by
  exact ⟨by decide, by decide⟩

/-- C6 (amended): a value with no extractable date raises a DateParseError
that is surfaced, never replaced by a default — but the error aborts the
whole-column (and hence whole-table) clean: the column succeeds exactly
when every row parses, and any failing row turns the entire result into an
error. -/
theorem clean_date_error_propagation :
    (∀ rows : List String,
      (∀ r ∈ rows, exceptOk (fuzzy_string_to_iso8601 r) = true) →
      ∃ vs, clean_date rows = Except.ok vs) ∧
    (∀ rows : List String,
      (∃ r ∈ rows, exceptOk (fuzzy_string_to_iso8601 r) = false) →
      ∃ e, clean_date rows = Except.error e) := by
  constructor
  · intro rows h
    induction rows with
    | nil => exact ⟨[], rfl⟩
    | cons d rest ih =>
      have hd := h d (List.mem_cons_self d rest)
      obtain ⟨v, hv⟩ : ∃ v, fuzzy_string_to_iso8601 d = Except.ok v := by
        cases hfd : fuzzy_string_to_iso8601 d with
        | ok v => exact ⟨v, rfl⟩
        | error e =>
          rw [hfd] at hd
          exact absurd hd (by simp [exceptOk])
      obtain ⟨vs, hvs⟩ := ih (fun r hr => h r (List.mem_cons_of_mem d hr))
      refine ⟨v :: vs, ?_⟩
      unfold clean_date
      rw [hv, hvs]
  · intro rows h
    induction rows with
    | nil =>
      obtain ⟨r, hr, _⟩ := h
      cases hr
    | cons d rest ih =>
      obtain ⟨r, hr, hrf⟩ := h
      cases hfd : fuzzy_string_to_iso8601 d with
      | error e =>
        refine ⟨e, ?_⟩
        unfold clean_date
        rw [hfd]
      | ok v =>
        rcases List.mem_cons.mp hr with h1 | h2
        · subst h1
          rw [hfd] at hrf
          exact absurd hrf (by simp [exceptOk])
        · obtain ⟨e, he⟩ := ih ⟨r, h2, hrf⟩
          refine ⟨e, ?_⟩
          unfold clean_date
          rw [hfd, he]

/-- Witness for `clean_date_error_propagation` on the mixed column of the
counterexample. -/
theorem clean_date_error_propagation_witness :
    ∃ e, clean_date ["2022-01-01", "not a date", "25/05/2020"] = Except.error e :=
  clean_date_error_propagation.2 ["2022-01-01", "not a date", "25/05/2020"] (by decide)

end Servier

